import Mathlib

/-!
# Verification of the timesheet CLI core (src/main.rs)

Shallow embedding of the calendar arithmetic, week-string parsing, monthly
aggregation (`handle_month`), spreadsheet export layout (`export_timesheet`),
and the edit/default helpers of the timesheet CLI, together with proofs of
the specification claims about them.

Hour values (`f64` in the source) are modelled as rationals; calendar years
(`i32`) as integers; day/week/month numbers (`u32`) as naturals.
-/

namespace Timesheet

/-! ## Proleptic Gregorian calendar arithmetic

These definitions embed the calendar semantics of the `chrono` functions the
source relies on: `NaiveDate::from_ymd_opt`, `NaiveDate::from_isoywd_opt`,
`Datelike::year/month/day/weekday` and `Datelike::iso_week`.
-/
/-- A calendar date: year (proleptic Gregorian, `i32` in chrono), month 1..12,
day 1..31. -/
structure Date where
  year : Int
  month : Nat
  day : Nat
deriving DecidableEq, Repr

/-- Gregorian leap-year rule (chrono uses the proleptic Gregorian calendar). -/
def isLeap (y : Int) : Bool :=
  (y % 4 == 0 && y % 100 != 0) || y % 400 == 0

/-- Lengths of the twelve months of year `y`. -/
def monthLengths (y : Int) : List Nat :=
  [31, if isLeap y then 29 else 28, 31, 30, 31, 30, 31, 31, 30, 31, 30, 31]

/-- Number of days in month `m` of year `y` (0 when `m` is not 1..12). -/
def daysInMonth (y : Int) (m : Nat) : Nat :=
  ((monthLengths y).getD (m - 1) 0)

/-- Number of days in year `y`. -/
def daysInYear (y : Int) : Int :=
  if isLeap y then 366 else 365

/-- Whether `(y, m, d)` is a real calendar date, as decided by
`NaiveDate::from_ymd_opt`. -/
def isValidYmd (y : Int) (m d : Nat) : Bool :=
  1 ≤ m && m ≤ 12 && 1 ≤ d && d ≤ daysInMonth y m

/-- Days in all years strictly before year `y`, counted from 0001-01-01. -/
def daysBeforeYear (y : Int) : Int :=
  365 * (y - 1) + (y - 1).fdiv 4 - (y - 1).fdiv 100 + (y - 1).fdiv 400

/-- Days in the months of year `y` strictly before month `m`. -/
def daysBeforeMonth (y : Int) (m : Nat) : Nat :=
  ((monthLengths y).take (m - 1)).sum

/-- Ordinal of the date within its year (1 = January 1). -/
def dayOfYear (y : Int) (m d : Nat) : Nat :=
  daysBeforeMonth y m + d

/-- Rata-die day number of a date: 0001-01-01 has number 1. -/
def rataDie (y : Int) (m d : Nat) : Int :=
  daysBeforeYear y + dayOfYear y m d

/-- ISO weekday of a date: Monday = 1 .. Sunday = 7 (0001-01-01 is a Monday in
the proleptic Gregorian calendar). -/
def isoWeekday (y : Int) (m d : Nat) : Nat :=
  ((rataDie y m d - 1) % 7).toNat + 1

/-- Number of ISO weeks in ISO year `y`: 53 iff January 1 is a Thursday, or
the year is leap and January 1 is a Wednesday; else 52. -/
def isoWeeksInYear (y : Int) : Nat :=
  if isoWeekday y 1 1 = 4 ∨ (isLeap y ∧ isoWeekday y 1 1 = 3) then 53 else 52

/-- Walk the month-length list to convert a within-year ordinal to
(month, day). -/
def ordMonthAux : List Nat → Nat → Int → Nat × Int
  | [], m, ord => (m, ord)
  | len :: rest, m, ord =>
      if ord ≤ (len : Int) then (m, ord) else ordMonthAux rest (m + 1) (ord - len)

/-- Date of the `ord`-th day (1-based) of year `y`; assumes
`1 ≤ ord ≤ daysInYear y`. -/
def ordinalToDate (y : Int) (ord : Int) : Date :=
  let md := ordMonthAux (monthLengths y) 1 ord
  ⟨y, md.1, md.2.toNat⟩

/-- The calendar date of weekday `wd` (Monday = 1 .. Sunday = 7) of ISO week
`w` of ISO year `y`, exactly as `NaiveDate::from_isoywd_opt`: `none` iff the
week number is outside `1..isoWeeksInYear y`. -/
def fromIsoywd (y : Int) (w wd : Nat) : Option Date :=
  if 1 ≤ w ∧ w ≤ isoWeeksInYear y ∧ 1 ≤ wd ∧ wd ≤ 7 then
    let jan4wd := isoWeekday y 1 4
    let ord : Int := 7 * w + wd - (jan4wd + 3)
    if ord < 1 then some (ordinalToDate (y - 1) (ord + daysInYear (y - 1)))
    else if ord > daysInYear y then some (ordinalToDate (y + 1) (ord - daysInYear y))
    else some (ordinalToDate y ord)
  else none

/-- The (ISO year, ISO week) of a calendar date, as `Datelike::iso_week`. -/
def isoWeekOfDate (y : Int) (m d : Nat) : Int × Nat :=
  let wd := isoWeekday y m d
  let w := (dayOfYear y m d + 10 - wd) / 7
  if w = 0 then (y - 1, isoWeeksInYear (y - 1))
  else if w > isoWeeksInYear y then (y + 1, 1)
  else (y, w)

/-! ## Week-string parsing

`handle_month` splits each stored week string on the substring `"-W"` and
parses the two parts with `str::parse::<i32>` / `str::parse::<u32>`, falling
back to `0` via `unwrap_or_default`.
-/
/-- Value of a nonempty all-digit character list, as Rust's integer `parse`
reads the digit run. -/
def decDigits? : List Char → Option Nat
  | [] => none
  | cs => if cs.all Char.isDigit
      then some (cs.foldl (fun a c => a * 10 + (c.toNat - 48)) 0) else none

/-- `str::parse::<i32>`: optional sign, then decimal digits, within `i32`
range. -/
def parseI32 (s : String) : Option Int :=
  match s.data with
  | '+' :: rest => (decDigits? rest).bind
      (fun n => if n ≤ 2147483647 then some (n : Int) else none)
  | '-' :: rest => (decDigits? rest).bind
      (fun n => if n ≤ 2147483648 then some (-(n : Int)) else none)
  | cs => (decDigits? cs).bind
      (fun n => if n ≤ 2147483647 then some (n : Int) else none)

/-- `str::parse::<u32>`: optional `+`, then decimal digits, within `u32`
range. -/
def parseU32 (s : String) : Option Nat :=
  match s.data with
  | '+' :: rest => (decDigits? rest).bind
      (fun n => if n ≤ 4294967295 then some n else none)
  | cs => (decDigits? cs).bind (fun n => if n ≤ 4294967295 then some n else none)

/-- Split a character list at each (non-overlapping) occurrence of the
two-character pattern `-W`, as Rust's `str::split("-W")`. -/
def splitDashW : List Char → List (List Char)
  | [] => [[]]
  | '-' :: 'W' :: rest => [] :: splitDashW rest
  | c :: rest =>
      match splitDashW rest with
      | [] => [[c]]
      | p :: ps => (c :: p) :: ps

/-- The parts of a week string under `week_str.split("-W")`. -/
def splitWeekParts (s : String) : List String :=
  (splitDashW s.data).map (fun cs => ⟨cs⟩)

/-- The week parsing of `handle_month` lines 408-412: split on `"-W"`; `none`
(row skipped via `continue`) unless there are exactly two parts; each part is
parsed with fallback `0` (`unwrap_or_default`). -/
def parseWeek (s : String) : Option (Int × Nat) :=
  match splitWeekParts s with
  | [a, b] => some ((parseI32 a).getD 0, (parseU32 b).getD 0)
  | _ => none

/-! ## The monthly aggregation of `handle_month` (lines 390-431)

A stored `timesheets` row carries a week string, a project name and seven
per-weekday hour values.  The aggregation accumulates, for a selected target
`(year, month)`, per-project per-day cells (`project_rows`, a map keyed on
project name and day), per-day column totals (`col_totals`) and a running
`grand_total`.  The `BTreeMap`/`HashMap` containers are modelled as
association lists with unique keys, written by `addToMap`
(`*map.entry(k).or_insert(0.0) += h`).
-/
/-- A row of the `timesheets` table as fetched by `handle_month`. -/
structure EntryRow where
  week : String
  project : String
  mon : ℚ
  tue : ℚ
  wed : ℚ
  thu : ℚ
  fri : ℚ
  sat : ℚ
  sun : ℚ
deriving DecidableEq, Repr

/-- The seven weekday slots of a row, in iteration order, paired with their
ISO weekday number (`day_idx 0..6` mapped to `Weekday::Mon..Sun`). -/
def EntryRow.slots (e : EntryRow) : List (Nat × ℚ) :=
  [(1, e.mon), (2, e.tue), (3, e.wed), (4, e.thu), (5, e.fri), (6, e.sat), (7, e.sun)]

/-- The derived month matrix: project-day cells, per-day column totals and the
grand total. -/
structure MonthMatrix where
  cells : List ((String × Nat) × ℚ)
  colTotals : List (Nat × ℚ)
  grandTotal : ℚ
deriving DecidableEq, Repr

/-- `*map.entry(k).or_insert(0.0) += v`: add `v` onto key `k`, inserting the
key if absent. -/
def addToMap {α : Type} [DecidableEq α] (k : α) (v : ℚ) :
    List (α × ℚ) → List (α × ℚ)
  | [] => [(k, v)]
  | (k', v') :: rest =>
      if k = k' then (k', v' + v) :: rest else (k', v') :: addToMap k v rest

/-- Value stored under key `k` (0 when absent, matching
`map.get(&k).unwrap_or(&0.0)`). -/
def lookupQ {α : Type} [DecidableEq α] (l : List (α × ℚ)) (k : α) : ℚ :=
  match l.find? (fun p => p.1 = k) with
  | some p => p.2
  | none => 0

/-- The empty matrix the aggregation starts from. -/
def emptyMatrix : MonthMatrix := ⟨[], [], 0⟩

/-- Process one weekday slot of a row (the body of the
`for (day_idx, &h) in hours.iter().enumerate()` loop): skip zero hours, skip
slots whose ISO week-date does not exist, and accumulate slots whose calendar
date falls in the target month. -/
def applySlot (target : Int × Nat) (project : String) (wy : Int) (wn : Nat)
    (m : MonthMatrix) (s : Nat × ℚ) : MonthMatrix :=
  if s.2 = 0 then m
  else
    match fromIsoywd wy wn s.1 with
    | none => m
    | some date =>
        if date.year = target.1 ∧ date.month = target.2 then
          { cells := addToMap (project, date.day) s.2 m.cells
            colTotals := addToMap date.day s.2 m.colTotals
            grandTotal := m.grandTotal + s.2 }
        else m

/-- Process one `timesheets` row: parse its week string (skipping the row when
it does not split into exactly two parts, with unparseable parts defaulting to
0), then fold its seven weekday slots into the matrix. -/
def aggStep (target : Int × Nat) (m : MonthMatrix) (row : EntryRow) :
    MonthMatrix :=
  match parseWeek row.week with
  | none => m
  | some (wy, wn) => row.slots.foldl (applySlot target row.project wy wn) m

/-- The whole aggregation of `handle_month`: fold all fetched rows into the
empty matrix. -/
def aggregate (rows : List EntryRow) (target : Int × Nat) : MonthMatrix :=
  rows.foldl (aggStep target) emptyMatrix

/-- Cell value of a matrix for a (project, day) key. -/
def cellVal (m : MonthMatrix) (project : String) (day : Nat) : ℚ :=
  lookupQ m.cells (project, day)

/-- Column total of a matrix for a day. -/
def colVal (m : MonthMatrix) (day : Nat) : ℚ :=
  lookupQ m.colTotals day

/-- The template row of the end-to-end scenario, seeded into week
`"2024-W05"` by the `INSERT ... SELECT` of `handle_log` (lines 231-238). -/
def acmeRow : EntryRow := ⟨"2024-W05", "Acme", 8, 8, 8, 8, 8, 0, 0⟩

/-- Sum of all values stored in an association-list map. -/
def sumVals {α : Type} (l : List (α × ℚ)) : ℚ :=
  (l.map Prod.snd).sum

/-- Sum over all per-project per-day cells of a matrix. -/
def cellsSum (m : MonthMatrix) : ℚ :=
  sumVals m.cells

/-- The balance invariant: the cell grid sums to the grand total. -/
def Balanced (m : MonthMatrix) : Prop :=
  cellsSum m = m.grandTotal

/-- Whether a week string matches the shape `<int>-W<int>`: it splits into
exactly two parts on `"-W"` and both parts parse as integers.  This
definition follows the spec's words for well-formed week strings, to be
compared with the lenient parsing `handle_month` actually performs. -/
def specWeekFormatOk (s : String) : Bool :=
  match splitWeekParts s with
  | [a, b] => (parseI32 a).isSome && (parseU32 b).isSome
  | _ => false

/-- A row whose week string has an unparseable year part but a parseable week
part. -/
def yearGarbageRow : EntryRow := ⟨"abc-W05", "P", 1, 0, 0, 0, 0, 0, 0⟩

/-! ## The persistent store and the single-day edit (`handle_log`) -/
/-- A persisted row of the `timesheets` table. -/
structure StoredEntry where
  id : Int
  week : String
  project : String
  mon : ℚ
  tue : ℚ
  wed : ℚ
  thu : ℚ
  fri : ℚ
  sat : ℚ
  sun : ℚ
deriving DecidableEq, Repr

/-- The `mon..sun` column selected by ISO weekday number 1..7; the catch-all
arm mirrors the source's `_ => "sun"`. -/
def dayField (e : StoredEntry) (wd : Nat) : ℚ :=
  match wd with
  | 1 => e.mon
  | 2 => e.tue
  | 3 => e.wed
  | 4 => e.thu
  | 5 => e.fri
  | 6 => e.sat
  | _ => e.sun

/-- A stored row viewed as the (week, project, hours) tuple that
`handle_month` fetches. -/
def StoredEntry.toRow (e : StoredEntry) : EntryRow :=
  ⟨e.week, e.project, e.mon, e.tue, e.wed, e.thu, e.fri, e.sat, e.sun⟩

/-- Overwrite weekday column `wd` of an entry (the single-column
`UPDATE timesheets SET {col} = ?1`). -/
def setDay (e : StoredEntry) (wd : Nat) (v : ℚ) : StoredEntry :=
  match wd with
  | 1 => { e with mon := v }
  | 2 => { e with tue := v }
  | 3 => { e with wed := v }
  | 4 => { e with thu := v }
  | 5 => { e with fri := v }
  | 6 => { e with sat := v }
  | _ => { e with sun := v }

/-- The "Edit Day" operation of `handle_log` (lines 298-306):
`UPDATE timesheets SET {col} = ?1 WHERE id = ?2`.  The prompted value is used
as parsed; no validation is performed on it. -/
def editDay (store : List StoredEntry) (eid : Int) (wd : Nat) (v : ℚ) :
    List StoredEntry :=
  store.map (fun e => if e.id = eid then setDay e wd v else e)

/-! ## The spreadsheet export (`export_timesheet`, lines 499-784)

The layout is modelled as a list of typed placement instructions; formats are
identified by the name of the `Format` binding the source passes. -/
/-- One worksheet placement instruction. -/
inductive Placement where
  | str (row col : Nat) (text : String) (fmt : String)
  | num (row col : Nat) (value : ℚ) (fmt : String)
  | blank (row col : Nat) (fmt : String)
deriving DecidableEq, Repr

/-- `start_row_cal`. -/
def startRowCal : Nat := 14

/-- `start_row_hours`. -/
def startRowHours : Nat := 16

/-- The Dutch weekday abbreviations of `days_map`, by ISO weekday number. -/
def dutchDay (wd : Nat) : String :=
  match wd with
  | 1 => "Ma"
  | 2 => "Di"
  | 3 => "Wo"
  | 4 => "Do"
  | 5 => "Vr"
  | 6 => "Za"
  | _ => "Zo"

/-- A week number as `{:02}` renders it: zero-padded to two digits. -/
def pad2 (n : Nat) : String :=
  if n < 10 then "0" ++ toString n else toString n

/-- The canonical week string `format!("{}-W{:02}", isoYear, isoWeek)`, the
sole wire format between the log UI and storage. -/
def canonicalWeekString (y : Int) (w : Nat) : String :=
  toString y ++ "-W" ++ pad2 w

/-- `SELECT {col} FROM timesheets WHERE week = ?1 AND project = ?2` with
`.optional()`: the weekday column of the first matching row, or `none`. -/
def storeLookupHours (store : List StoredEntry) (w p : String) (wd : Nat) :
    Option ℚ :=
  (store.find? (fun e => e.week == w && e.project == p)).map
    (fun e => dayField e wd)

/-- The hours value the export uses for a valid day: the stored entry under
the canonical week string of the day's ISO week and the selected project,
defaulted to 0 (`hours.unwrap_or(0.0)`). -/
def exportHoursVal (store : List StoredEntry) (proj : String) (y : Int)
    (mo d : Nat) : ℚ :=
  let iw := isoWeekOfDate y mo d
  (storeLookupHours store (canonicalWeekString iw.1 iw.2) proj
    (isoWeekday y mo d)).getD 0

/-- The placements the day loop of `export_timesheet` (lines 634-678) makes
in the column of day `d`: weekday abbreviation and day number above the hours
cell for valid dates (hours written as a number only when positive, else a
styled blank), and three styled blanks when `(y, mo, d)` is not a real
calendar date. -/
def exportDayColumn (store : List StoredEntry) (proj : String) (y : Int)
    (mo d : Nat) : List Placement :=
  if isValidYmd y mo d then
    [Placement.str startRowCal (d + 1) (dutchDay (isoWeekday y mo d))
        "sheet_header",
     Placement.num (startRowCal + 1) (d + 1) (d : ℚ) "sheet_header"] ++
    (if 0 < exportHoursVal store proj y mo d then
      [Placement.num startRowHours (d + 1) (exportHoursVal store proj y mo d)
          "sheet_hours"]
     else [Placement.blank startRowHours (d + 1) "sheet_hours"])
  else
    [Placement.blank startRowCal (d + 1) "sheet_header",
     Placement.blank (startRowCal + 1) (d + 1) "sheet_header",
     Placement.blank startRowHours (d + 1) "sheet_hours"]

/-- The day numbers the export iterates: `for day in 1..=31`, regardless of
the month's length. -/
def exportDays : List Nat :=
  (List.range 31).map (fun i => i + 1)

/-- All placements of the 31-column day grid. -/
def exportDayGrid (store : List StoredEntry) (proj : String) (y : Int)
    (mo : Nat) : List Placement :=
  (exportDays.map (exportDayColumn store proj y mo)).flatten

/-- Worksheet column of a placement. -/
def placementCol : Placement → Nat
  | .str _ c _ _ => c
  | .num _ c _ _ => c
  | .blank _ c _ => c

/-- The placements a list makes in worksheet column `c`. -/
def placementsAtCol (l : List Placement) (c : Nat) : List Placement :=
  l.filter (fun p => placementCol p == c)

/-- Letters of an Excel column name, most significant first; the `fuel`
argument only bounds the recursion depth (one letter per level, so any
`fuel > n` is enough). -/
def columnNameAux : Nat → Nat → List Char
  | 0, _ => []
  | fuel + 1, n =>
      if n < 26 then [Char.ofNat (65 + n)]
      else columnNameAux fuel (n / 26 - 1) ++ [Char.ofNat (65 + n % 26)]

/-- `rust_xlsxwriter::column_number_to_name`: 0 → "A", 25 → "Z", 26 → "AA". -/
def columnNumberToName (n : Nat) : String :=
  ⟨columnNameAux (n + 1) n⟩

/-- The worksheet column that holds day `d` of the grid (the source writes
day `day` at column `col_idx + 1` with `col_idx = day`). -/
def dayColumnIndex (d : Nat) : Nat := d + 1

/-- The row-total formula of data row `r` (0 = hours row, 1..4 = the blank
rows), from lines 692-697: `format!("=SUM(B{}:AF{})", row_num_excel,
row_num_excel)` with `row_num_excel = start_row_hours + r + 1`. -/
def rowTotalFormulaString (r : Nat) : String :=
  "=SUM(B" ++ toString (startRowHours + r + 1) ++ ":AF"
    ++ toString (startRowHours + r + 1) ++ ")"

/-- Modelled from the spec's words: the sum-of-row formula a data row should
carry, referencing exactly the fixed day-column range — the columns of days
1..31 — of that row. -/
def specRowTotalFormulaString (r : Nat) : String :=
  "=SUM(" ++ columnNumberToName (dayColumnIndex 1)
    ++ toString (startRowHours + r + 1) ++ ":"
    ++ columnNumberToName (dayColumnIndex 31)
    ++ toString (startRowHours + r + 1) ++ ")"

/-! ## The interactive defaults of `handle_log` and `handle_month` -/
/-- The default week string of `handle_log` (lines 206-207):
`format!("{}-W{:02}", current_date.year(), current_date.iso_week().week()+1)`
— the calendar year together with the ISO week number plus one. -/
def logDefaultWeek (y : Int) (mo d : Nat) : String :=
  toString y ++ "-W" ++ pad2 ((isoWeekOfDate y mo d).2 + 1)

/-- Modelled from the spec's words: the canonical string of the ISO week
immediately following the current date's ISO week, with the ISO year
preserved. -/
def specNextIsoWeekString (y : Int) (mo d : Nat) : String :=
  let iw := isoWeekOfDate y mo d
  if iw.2 < isoWeeksInYear iw.1 then canonicalWeekString iw.1 (iw.2 + 1)
  else canonicalWeekString (iw.1 + 1) 1

/-- The default (year, month) pair of `handle_month` (lines 365-367): the
current year unconditionally, with month 12 in January and the month minus
one otherwise.  (`export_timesheet` lines 515-516 compute the same pair.) -/
def monthDefault (y : Int) (mo : Nat) : Int × Nat :=
  (y, if mo = 1 then 12 else mo - 1)

/-- Modelled from the spec's words: the previous calendar month. -/
def specPrevMonth (y : Int) (mo : Nat) : Int × Nat :=
  if mo = 1 then (y - 1, 12) else (y, mo - 1)

/-- A one-entry store used to exercise the single-day edit. -/
def editStore : List StoredEntry :=
  [⟨1, "2024-W05", "Acme", 8, 8, 8, 8, 8, 0, 0⟩]

/-- A Monday-to-Friday work week stored under the non-canonical week string
"2024-W5". -/
def ncWeekEntry : StoredEntry := ⟨5, "2024-W5", "Acme", 8, 7, 6, 5, 4, 0, 0⟩

/-- A second stored entry for another project, under the canonical week
string. -/
def betaEntry : StoredEntry := ⟨6, "2024-W05", "Beta", 3, 0, 0, 0, 0, 0, 0⟩

/-! ## Order-independence of the aggregation

`project_rows` is a `BTreeMap` and `col_totals` a `HashMap`: their contents
are key-value maps, so two aggregation results are "identical" when their
association lists hold the same key-value pairs (are permutations of each
other; keys are unique) and the grand totals agree. -/
/-- The keys of an association-list map are pairwise distinct. -/
def nodupKeys {α : Type} (l : List (α × ℚ)) : Prop :=
  (l.map Prod.fst).Nodup

/-- Two month matrices with the same map contents and grand total. -/
def MRel (m m' : MonthMatrix) : Prop :=
  m.cells.Perm m'.cells ∧ m.colTotals.Perm m'.colTotals ∧
    m.grandTotal = m'.grandTotal

/-- Both maps of a matrix have unique keys. -/
def MInv (m : MonthMatrix) : Prop :=
  nodupKeys m.cells ∧ nodupKeys m.colTotals

/-- What a weekday slot does, independently of the accumulated matrix:
`none` when it is skipped, otherwise the cell key, the day and the hours it
accumulates. -/
def slotAction (t : Int × Nat) (p : String) (wy : Int) (wn : Nat)
    (s : Nat × ℚ) : Option ((String × Nat) × Nat × ℚ) :=
  if s.2 = 0 then none
  else
    match fromIsoywd wy wn s.1 with
    | none => none
    | some date =>
        if date.year = t.1 ∧ date.month = t.2 then
          some ((p, date.day), date.day, s.2)
        else none

/-- The contribution of one weekday slot to the matrix cell at `key`. -/
def slotCellContrib (t : Int × Nat) (p : String) (wy : Int) (wn : Nat)
    (key : String × Nat) (s : Nat × ℚ) : ℚ :=
  match slotAction t p wy wn s with
  | none => 0
  | some a => if a.1 = key then a.2.2 else 0

/-- The contribution of one fetched row to the matrix cell at `key`. -/
def rowCellContrib (t : Int × Nat) (key : String × Nat) (r : EntryRow) : ℚ :=
  match parseWeek r.week with
  | none => 0
  | some (wy, wn) => (r.slots.map (slotCellContrib t r.project wy wn key)).sum

/-- Rows used to exercise the permutation invariance of the aggregation. -/
def permRowA : EntryRow := ⟨"2024-W05", "Alpha", 1, 2, 0, 0, 0, 0, 0⟩

/-- Second row of the permutation example, sharing a cell with `permRowA`. -/
def permRowB : EntryRow := ⟨"2024-W05", "Alpha", 4, 0, 0, 0, 0, 0, 3⟩

/-! ## Sanity checks, helper lemmas and the claim theorems -/

-- Sanity checks of the calendar embedding on known dates.
example : isoWeekday 2024 1 1 = 1 := by decide

example : isoWeekday 2024 1 29 = 1 := by decide

example : fromIsoywd 2024 5 1 = some ⟨2024, 1, 29⟩ := by decide

example : fromIsoywd 2024 5 4 = some ⟨2024, 2, 1⟩ := by decide

example : fromIsoywd 2020 1 3 = some ⟨2020, 1, 1⟩ := by decide

example : fromIsoywd 2020 53 7 = some ⟨2021, 1, 3⟩ := by decide

example : fromIsoywd 2021 53 1 = none := by decide

example : isoWeeksInYear 2020 = 53 := by decide

example : isoWeekOfDate 2024 12 30 = (2025, 1) := by decide

example : isoWeekOfDate 2024 1 29 = (2024, 5) := by decide

example : isoWeekOfDate 2021 1 1 = (2020, 53) := by decide

example : isValidYmd 2023 2 28 = true ∧ isValidYmd 2023 2 29 = false := by decide

example : parseWeek "2024-W05" = some (2024, 5) := by decide

example : parseWeek "2024-W5" = some (2024, 5) := by decide

example : parseWeek "garbage" = none := by decide

example : parseWeek "abc-W05" = some (0, 5) := by decide

example : parseWeek "2024-Wxy" = some (2024, 0) := by decide

example : parseWeek "2024-W1-W2" = none := by decide

theorem sumVals_addToMap {α : Type} [DecidableEq α] (k : α) (v : ℚ) :
    ∀ l : List (α × ℚ), sumVals (addToMap k v l) = sumVals l + v := by
  intro l
  induction l with
  | nil => simp [addToMap, sumVals]
  | cons p rest ih =>
      by_cases h : k = p.1
      · simp [addToMap, h, sumVals]
        ring
      · simp [addToMap, h, sumVals] at ih ⊢
        rw [ih]
        ring

theorem applySlot_balanced (target : Int × Nat) (project : String) (wy : Int)
    (wn : Nat) (m : MonthMatrix) (s : Nat × ℚ) (h : Balanced m) :
    Balanced (applySlot target project wy wn m s) := by
  unfold applySlot
  split
  · exact h
  · cases hfd : fromIsoywd wy wn s.1 with
    | none => exact h
    | some date =>
        simp only
        split
        · unfold Balanced cellsSum at h ⊢
          simp only [sumVals_addToMap]
          rw [h]
        · exact h

theorem foldl_applySlot_balanced (target : Int × Nat) (project : String)
    (wy : Int) (wn : Nat) :
    ∀ (l : List (Nat × ℚ)) (m : MonthMatrix), Balanced m →
      Balanced (l.foldl (applySlot target project wy wn) m)
  | [], _, h => h
  | s :: l, m, h =>
      foldl_applySlot_balanced target project wy wn l _
        (applySlot_balanced target project wy wn m s h)

theorem aggStep_balanced (target : Int × Nat) (m : MonthMatrix)
    (row : EntryRow) (h : Balanced m) : Balanced (aggStep target m row) := by
  unfold aggStep
  cases parseWeek row.week with
  | none => exact h
  | some p => exact foldl_applySlot_balanced target row.project p.1 p.2 _ m h

theorem foldl_aggStep_balanced (target : Int × Nat) :
    ∀ (rows : List EntryRow) (m : MonthMatrix), Balanced m →
      Balanced (rows.foldl (aggStep target) m)
  | [], _, h => h
  | row :: rows, m, h =>
      foldl_aggStep_balanced target rows _ (aggStep_balanced target m row h)

theorem fromIsoywd_week_zero (y : Int) (wd : Nat) :
    fromIsoywd y 0 wd = none := by
  simp [fromIsoywd]

theorem foldl_fixed {α β : Type} (f : β → α → β) (h : ∀ m s, f m s = m) :
    ∀ (l : List α) (m : β), l.foldl f m = m
  | [], _ => rfl
  | s :: l, m => by rw [List.foldl_cons, h, foldl_fixed f h l]

theorem aggStep_skip (target : Int × Nat) (m : MonthMatrix) (row : EntryRow)
    (h : parseWeek row.week = none ∨
      ∃ y : Int, parseWeek row.week = some (y, 0)) :
    aggStep target m row = m := by
  rcases h with h | ⟨y, h⟩
  · unfold aggStep
    rw [h]
  · unfold aggStep
    rw [h]
    exact foldl_fixed _ (fun m s => by
      unfold applySlot
      split
      · rfl
      · rw [fromIsoywd_week_zero]) _ m

section

attribute [local semireducible] Rat.add

/-- C2: seeding the template {project="Acme", hours=(8,8,8,8,8,0,0)} into week
"2024-W05" and aggregating for target month (2024, 1) yields a matrix where
project "Acme" has 8 hours on each of days 29, 30 and 31 and nothing else
(grand total 24), because ISO week 5 of 2024 starts Monday 2024-01-29; and
aggregating the same rows for (2024, 2) yields no contribution from that
week's Monday-to-Wednesday hours (only Thursday/Friday, which fall on
February 1 and 2, appear). -/
theorem c2_acme_week5_month_boundary :
    (aggregate [acmeRow] (2024, 1)).cells
        = [(("Acme", 29), 8), (("Acme", 30), 8), (("Acme", 31), 8)] ∧
    (aggregate [acmeRow] (2024, 1)).colTotals = [(29, 8), (30, 8), (31, 8)] ∧
    (aggregate [acmeRow] (2024, 1)).grandTotal = 24 ∧
    (aggregate [acmeRow] (2024, 2)).cells
        = [(("Acme", 1), 8), (("Acme", 2), 8)] ∧
    cellVal (aggregate [acmeRow] (2024, 2)) "Acme" 29 = 0 ∧
    cellVal (aggregate [acmeRow] (2024, 2)) "Acme" 30 = 0 ∧
    cellVal (aggregate [acmeRow] (2024, 2)) "Acme" 31 = 0 := by
  decide

/-- C3: for every input row set and every target month, the sum of all
per-project per-day cell values of the resulting month matrix equals its
reported grand total. -/
theorem c3_cells_sum_eq_grand_total (rows : List EntryRow)
    (target : Int × Nat) :
    cellsSum (aggregate rows target) = (aggregate rows target).grandTotal :=
  foldl_aggStep_balanced target rows emptyMatrix rfl

/-- C5 counterexample: the row with week string "abc-W05" — which does not
match `<int>-W<int>` — is not always skipped: its year part defaults to 0
under `unwrap_or_default`, so for target month (0, 1) it contributes 1 hour
to cell ("P", 31) and to the grand total. -/
theorem c5_counterexample_year_garbage :
    specWeekFormatOk "abc-W05" = false ∧
    (aggregate [yearGarbageRow] (0, 1)).grandTotal = 1 ∧
    cellVal (aggregate [yearGarbageRow] (0, 1)) "P" 31 = 1 ∧
    ¬ (aggregate [yearGarbageRow] (0, 1)).grandTotal = 0 := by
  decide

end

/-- C5 amended: a row is silently skipped for every target month — leaving
the whole aggregation unchanged, with no error raised — when its week string
does not split into exactly two parts on "-W" (`parseWeek` returns `none`),
or when its week-number part fails to parse (the week defaults to 0, which is
never a valid ISO week).  A week string whose year part fails to parse is
instead treated as ISO year 0 and can still contribute to target months of
year 0. -/
theorem c5_amended_malformed_week_skipped (target : Int × Nat)
    (rows₁ rows₂ : List EntryRow) (row : EntryRow)
    (h : parseWeek row.week = none ∨
      ∃ y : Int, parseWeek row.week = some (y, 0)) :
    aggregate (rows₁ ++ row :: rows₂) target
      = aggregate (rows₁ ++ rows₂) target := by
  unfold aggregate
  rw [List.foldl_append, List.foldl_append, List.foldl_cons,
    aggStep_skip target _ row h]

theorem c5_amended_witness :
    aggregate [⟨"garbage", "P", 1, 0, 0, 0, 0, 0, 0⟩] (2024, 1)
      = aggregate [] (2024, 1) :=
  c5_amended_malformed_week_skipped (2024, 1) [] []
    ⟨"garbage", "P", 1, 0, 0, 0, 0, 0, 0⟩ (Or.inl (by decide))

-- Sanity checks of the export-side embedding.
example : canonicalWeekString 2024 5 = "2024-W05" := by decide

example : columnNumberToName 1 = "B" ∧ columnNumberToName 2 = "C"
    ∧ columnNumberToName 31 = "AF" ∧ columnNumberToName 32 = "AG"
    ∧ columnNumberToName 33 = "AH" := by decide

/-- C1: each of the 5 data rows gets exactly one row-total formula, but its
referenced range is `B..AF` (worksheet columns 1..31) — the description
column plus the columns of days 1..30 — whereas the day values are placed in
columns `C..AG` (worksheet columns 2..32, days 1..31).  The formula therefore
does not reference exactly the 31 day columns: it includes the description
column and omits the column of day 31. -/
theorem c1_row_total_formula_range :
    (List.range 5).map rowTotalFormulaString
      = ["=SUM(B17:AF17)", "=SUM(B18:AF18)", "=SUM(B19:AF19)",
         "=SUM(B20:AF20)", "=SUM(B21:AF21)"] ∧
    columnNumberToName (dayColumnIndex 1) = "C" ∧
    columnNumberToName (dayColumnIndex 31) = "AG" ∧
    columnNumberToName 1 = "B" ∧
    (List.range 5).map specRowTotalFormulaString
      = ["=SUM(C17:AG17)", "=SUM(C18:AG18)", "=SUM(C19:AG19)",
         "=SUM(C20:AG20)", "=SUM(C21:AG21)"] ∧
    rowTotalFormulaString 0 ≠ specRowTotalFormulaString 0 := by
  decide

/-- C7: the `log` default week string is built from the calendar year and the
unwrapped ISO week number plus one, not from the next ISO week.  On
2024-12-30 (ISO week 2025-W01) the code defaults to "2024-W02" where the next
ISO week is 2025-W02; on 2024-12-25 (ISO week 2024-W52, the last week of an
ISO year with only 52 weeks) it defaults to the non-existent week "2024-W53"
where the next ISO week is 2025-W01. -/
theorem c7_default_week_divergence :
    logDefaultWeek 2024 12 30 = "2024-W02" ∧
    specNextIsoWeekString 2024 12 30 = "2025-W02" ∧
    logDefaultWeek 2024 12 30 ≠ specNextIsoWeekString 2024 12 30 ∧
    logDefaultWeek 2024 12 25 = "2024-W53" ∧
    isoWeeksInYear 2024 = 52 ∧
    specNextIsoWeekString 2024 12 25 = "2025-W01" := by
  decide

/-- C8: the `month` default year is the current year unconditionally, so for
a current date in January 2025 the default pair is (2025, 12) — December of
the current year — and not the previous calendar month (2024, 12).  For any
other month the two agree. -/
theorem c8_default_month_divergence :
    monthDefault 2025 1 = (2025, 12) ∧
    specPrevMonth 2025 1 = (2024, 12) ∧
    monthDefault 2025 1 ≠ specPrevMonth 2025 1 ∧
    monthDefault 2025 3 = (2025, 2) ∧
    monthDefault 2025 3 = specPrevMonth 2025 3 := by
  decide

/-- C9 counterexample: the single-day edit accepts a negative value — the
prompted `f64` is written to the store unvalidated — so editing Monday of the
stored entry to -5 changes the entry instead of failing with `InvalidValue`
and leaving it unchanged. -/
theorem c9_counterexample_negative_value_stored :
    editDay editStore 1 1 (-5) ≠ editStore ∧
    editDay editStore 1 1 (-5)
      = [⟨1, "2024-W05", "Acme", -5, 8, 8, 8, 8, 0, 0⟩] := by
  decide

/-- C9 amended: the single-day edit performs no validation of the new value —
any parsed value, negative included, is accepted — and updates exactly the
one weekday field of the entries whose id matches, leaving the entry's other
fields, its identity columns, and all entries with a different id unchanged,
with no error raised. -/
theorem c9_amended_edit_updates_exactly_one_field (store : List StoredEntry)
    (eid : Int) (wd : Nat) (v : ℚ) (hwd : 1 ≤ wd ∧ wd ≤ 7) :
    (editDay store eid wd v).length = store.length ∧
    (∀ (i : Nat) (e : StoredEntry), store[i]? = some e → e.id ≠ eid →
      (editDay store eid wd v)[i]? = some e) ∧
    (∀ (i : Nat) (e : StoredEntry), store[i]? = some e → e.id = eid →
      (editDay store eid wd v)[i]? = some (setDay e wd v) ∧
      dayField (setDay e wd v) wd = v ∧
      (setDay e wd v).id = e.id ∧
      (setDay e wd v).week = e.week ∧
      (setDay e wd v).project = e.project ∧
      ∀ wd', 1 ≤ wd' → wd' ≤ 7 → wd' ≠ wd →
        dayField (setDay e wd v) wd' = dayField e wd') := by
  obtain ⟨hw1, hw7⟩ := hwd
  refine ⟨by simp [editDay], ?_, ?_⟩
  · intro i e he hne
    simp [editDay, List.getElem?_map, he, hne]
  · intro i e he heq
    refine ⟨by simp [editDay, List.getElem?_map, he, heq], ?_, ?_, ?_, ?_, ?_⟩
    · interval_cases wd <;> simp [setDay, dayField]
    · interval_cases wd <;> rfl
    · interval_cases wd <;> rfl
    · interval_cases wd <;> rfl
    · intro wd' h1 h2 hne
      interval_cases wd <;> interval_cases wd' <;>
        simp_all [setDay, dayField]

theorem c9_amended_witness :
    editDay editStore 1 2 4
      = [⟨1, "2024-W05", "Acme", 8, 4, 8, 8, 8, 0, 0⟩] := by
  have h := (c9_amended_edit_updates_exactly_one_field editStore 1 2 4
    (by decide)).2.2 0 ⟨1, "2024-W05", "Acme", 8, 8, 8, 8, 8, 0, 0⟩
    (by decide) (by decide)
  have h0 : (editDay editStore 1 2 4)[0]?
      = some ⟨1, "2024-W05", "Acme", 8, 4, 8, 8, 8, 0, 0⟩ := h.1
  have hlen : (editDay editStore 1 2 4).length = editStore.length :=
    (c9_amended_edit_updates_exactly_one_field editStore 1 2 4 (by decide)).1
  cases hl : editDay editStore 1 2 4 with
  | nil => rw [hl] at h0; simp at h0
  | cons a l =>
      rw [hl] at h0 hlen
      simp only [List.getElem?_cons_zero, Option.some.injEq] at h0
      simp only [List.length_cons, editStore, List.length_singleton] at hlen
      cases l with
      | nil => rw [h0]
      | cons b l' => simp at hlen

theorem placementCol_exportDayColumn (store : List StoredEntry)
    (proj : String) (y : Int) (mo d : Nat) :
    ∀ p ∈ exportDayColumn store proj y mo d, placementCol p = d + 1 := by
  intro p hp
  unfold exportDayColumn at hp
  split at hp
  · rcases List.mem_append.1 hp with h | h
    · simp only [List.mem_cons, List.not_mem_nil, or_false] at h
      rcases h with rfl | rfl <;> rfl
    · split at h <;>
        (simp only [List.mem_cons, List.not_mem_nil, or_false] at h;
         subst h; rfl)
  · simp only [List.mem_cons, List.not_mem_nil, or_false] at hp
    rcases hp with rfl | rfl | rfl <;> rfl

theorem placementsAtCol_grid_aux (store : List StoredEntry) (proj : String)
    (y : Int) (mo d : Nat) :
    ∀ ds : List Nat, ds.Nodup → d ∈ ds →
      placementsAtCol ((ds.map (exportDayColumn store proj y mo)).flatten)
          (d + 1)
        = exportDayColumn store proj y mo d := by
  intro ds
  induction ds with
  | nil => intro _ h; cases h
  | cons d' ds ih =>
      intro hnd hmem
      rw [List.map_cons, List.flatten_cons]
      unfold placementsAtCol
      rw [List.filter_append]
      by_cases hd : d' = d
      · subst hd
        have hself : (exportDayColumn store proj y mo d').filter
            (fun p => placementCol p == d' + 1)
            = exportDayColumn store proj y mo d' := by
          apply List.filter_eq_self.2
          intro p hp
          simp [placementCol_exportDayColumn store proj y mo d' p hp]
        have hnil : ((ds.map (exportDayColumn store proj y mo)).flatten).filter
            (fun p => placementCol p == d' + 1) = [] := by
          apply List.filter_eq_nil_iff.2
          intro p hp
          rcases List.mem_flatten.1 hp with ⟨l, hl, hpl⟩
          rcases List.mem_map.1 hl with ⟨d'', hd'', rfl⟩
          have : placementCol p = d'' + 1 :=
            placementCol_exportDayColumn store proj y mo d'' p hpl
          have hne : d'' ≠ d' := fun h => (List.nodup_cons.1 hnd).1 (h ▸ hd'')
          simp [this, hne]
        rw [hself, hnil, List.append_nil]
      · have hmem' : d ∈ ds := by
          rcases List.mem_cons.1 hmem with h | h
          · exact absurd h.symm hd
          · exact h
        have hnil : (exportDayColumn store proj y mo d').filter
            (fun p => placementCol p == d + 1) = [] := by
          apply List.filter_eq_nil_iff.2
          intro p hp
          have : placementCol p = d' + 1 :=
            placementCol_exportDayColumn store proj y mo d' p hp
          simp [this, hd]
        rw [hnil, List.nil_append]
        exact ih (List.nodup_cons.1 hnd).2 hmem'

theorem exportDays_nodup : exportDays.Nodup :=
  (List.nodup_range 31).map (fun a b h => by omega)

theorem mem_exportDays {d : Nat} : d ∈ exportDays ↔ 1 ≤ d ∧ d ≤ 31 := by
  simp only [exportDays, List.mem_map, List.mem_range]
  constructor
  · rintro ⟨i, hi, rfl⟩; omega
  · intro h; exact ⟨d - 1, by omega, by omega⟩

/-- C6: for every month selection (valid or not, in particular February of a
non-leap year) the day grid of the export reserves all 31 day columns: the
placements of the full grid in the column of day `d` (worksheet column
`d + 1`) are exactly that day's placements.  When `d` is not a real calendar
date of the month these are three styled blanks carrying no numeric value;
when it is, they are the localized weekday abbreviation and the day number
above the hours cell, the hours cell being a number only when the stored
hours are positive and a styled blank otherwise. -/
theorem c6_grid_reserves_31_columns (store : List StoredEntry) (proj : String)
    (y : Int) (mo : Nat) (d : Nat) (h1 : 1 ≤ d) (h2 : d ≤ 31) :
    placementsAtCol (exportDayGrid store proj y mo) (d + 1)
      = exportDayColumn store proj y mo d ∧
    (¬ isValidYmd y mo d = true →
      exportDayColumn store proj y mo d
        = [Placement.blank startRowCal (d + 1) "sheet_header",
           Placement.blank (startRowCal + 1) (d + 1) "sheet_header",
           Placement.blank startRowHours (d + 1) "sheet_hours"]) ∧
    (isValidYmd y mo d = true →
      exportDayColumn store proj y mo d
        = [Placement.str startRowCal (d + 1)
             (dutchDay (isoWeekday y mo d)) "sheet_header",
           Placement.num (startRowCal + 1) (d + 1) (d : ℚ) "sheet_header"] ++
          (if 0 < exportHoursVal store proj y mo d then
            [Placement.num startRowHours (d + 1)
               (exportHoursVal store proj y mo d) "sheet_hours"]
           else [Placement.blank startRowHours (d + 1) "sheet_hours"])) := by
  refine ⟨?_, ?_, ?_⟩
  · exact placementsAtCol_grid_aux store proj y mo d exportDays exportDays_nodup
      (mem_exportDays.2 ⟨h1, h2⟩)
  · intro h
    unfold exportDayColumn
    rw [if_neg h]
  · intro h
    unfold exportDayColumn
    rw [if_pos h]

theorem c6_witness :
    exportDayColumn [] "X" 2023 2 30
      = [Placement.blank startRowCal 31 "sheet_header",
         Placement.blank (startRowCal + 1) 31 "sheet_header",
         Placement.blank startRowHours 31 "sheet_hours"] :=
  (c6_grid_reserves_31_columns [] "X" 2023 2 30 (by decide) (by decide)).2.1
    (by decide)

theorem MRel.refl (m : MonthMatrix) : MRel m m :=
  ⟨List.Perm.refl _, List.Perm.refl _, rfl⟩

theorem MRel.trans {a b c : MonthMatrix} (h₁ : MRel a b) (h₂ : MRel b c) :
    MRel a c :=
  ⟨h₁.1.trans h₂.1, h₁.2.1.trans h₂.2.1, h₁.2.2.trans h₂.2.2⟩

theorem addToMap_cons_eq {α : Type} [DecidableEq α] (p : α × ℚ) (v : ℚ)
    (l : List (α × ℚ)) : addToMap p.1 v (p :: l) = (p.1, p.2 + v) :: l := by
  simp [addToMap]

theorem addToMap_cons_ne {α : Type} [DecidableEq α] {k : α} (p : α × ℚ)
    (v : ℚ) (l : List (α × ℚ)) (h : k ≠ p.1) :
    addToMap k v (p :: l) = p :: addToMap k v l := by
  simp [addToMap, h]

theorem addToMap_cons_eq2 {α : Type} [DecidableEq α] (k : α) (w v : ℚ)
    (l : List (α × ℚ)) : addToMap k v ((k, w) :: l) = (k, w + v) :: l := by
  simp [addToMap]

theorem mem_keys_addToMap {α : Type} [DecidableEq α] {a k : α} (v : ℚ) :
    ∀ l : List (α × ℚ),
      (a ∈ (addToMap k v l).map Prod.fst ↔ a ∈ l.map Prod.fst ∨ a = k) := by
  intro l
  induction l with
  | nil => simp [addToMap]
  | cons p rest ih =>
      by_cases h : k = p.1
      · subst h
        rw [addToMap_cons_eq]
        simp only [List.map_cons, List.mem_cons]
        tauto
      · rw [addToMap_cons_ne p v rest h]
        simp only [List.map_cons, List.mem_cons, ih]
        tauto

theorem addToMap_nodupKeys {α : Type} [DecidableEq α] (k : α) (v : ℚ) :
    ∀ l : List (α × ℚ), nodupKeys l → nodupKeys (addToMap k v l) := by
  intro l
  induction l with
  | nil => intro _; simp [addToMap, nodupKeys]
  | cons p rest ih =>
      intro hnd
      have hnd' := hnd
      unfold nodupKeys at hnd'
      simp only [List.map_cons, List.nodup_cons] at hnd'
      rcases hnd' with ⟨hp, hrest⟩
      by_cases h : k = p.1
      · subst h
        unfold nodupKeys
        rw [addToMap_cons_eq]
        simp only [List.map_cons, List.nodup_cons]
        exact ⟨hp, hrest⟩
      · unfold nodupKeys
        rw [addToMap_cons_ne p v rest h]
        simp only [List.map_cons, List.nodup_cons]
        refine ⟨?_, ih hrest⟩
        rw [mem_keys_addToMap]
        rintro (hmem | rfl)
        · exact hp hmem
        · exact h rfl

theorem addToMap_perm {α : Type} [DecidableEq α] (k : α) (v : ℚ)
    {l l' : List (α × ℚ)} (hp : l.Perm l') :
    nodupKeys l → (addToMap k v l).Perm (addToMap k v l') := by
  induction hp with
  | nil => intro _; exact List.Perm.refl _
  | cons x hperm ih =>
      intro hnd
      by_cases hk : k = x.1
      · subst hk
        rw [addToMap_cons_eq, addToMap_cons_eq]
        exact hperm.cons _
      · rw [addToMap_cons_ne x v _ hk, addToMap_cons_ne x v _ hk]
        refine (ih ?_).cons _
        unfold nodupKeys at hnd
        simp only [List.map_cons, List.nodup_cons] at hnd
        exact hnd.2
  | swap x y l =>
      intro hnd
      have hxy : y.1 ≠ x.1 := by
        unfold nodupKeys at hnd
        simp only [List.map_cons, List.nodup_cons, List.mem_cons] at hnd
        tauto
      by_cases hk : k = y.1
      · subst hk
        rw [addToMap_cons_eq, addToMap_cons_ne x _ _ hxy, addToMap_cons_eq]
        exact List.Perm.swap _ _ _
      · by_cases hk' : k = x.1
        · subst hk'
          rw [addToMap_cons_ne y _ _ hk, addToMap_cons_eq, addToMap_cons_eq]
          exact List.Perm.swap _ _ _
        · rw [addToMap_cons_ne y _ _ hk, addToMap_cons_ne x _ _ hk',
            addToMap_cons_ne x _ _ hk', addToMap_cons_ne y _ _ hk]
          exact List.Perm.swap _ _ _
  | trans h1 h2 ih1 ih2 =>
      intro hnd
      exact (ih1 hnd).trans
        (ih2 (((h1.map Prod.fst).nodup_iff).1 hnd))

theorem addToMap_addToMap_same {α : Type} [DecidableEq α] (k : α)
    (v₁ v₂ : ℚ) : ∀ l : List (α × ℚ),
      addToMap k v₁ (addToMap k v₂ l) = addToMap k v₂ (addToMap k v₁ l) := by
  intro l
  induction l with
  | nil =>
      show addToMap k v₁ [(k, v₂)] = addToMap k v₂ [(k, v₁)]
      rw [addToMap_cons_eq2 k v₂ v₁ [], addToMap_cons_eq2 k v₁ v₂ [],
        add_comm]
  | cons p rest ih =>
      by_cases h : k = p.1
      · subst h
        rw [addToMap_cons_eq, addToMap_cons_eq,
          addToMap_cons_eq2 p.1 (p.2 + v₂) v₁ rest,
          addToMap_cons_eq2 p.1 (p.2 + v₁) v₂ rest,
          show p.2 + v₂ + v₁ = p.2 + v₁ + v₂ from by ring]
      · rw [addToMap_cons_ne p v₂ rest h, addToMap_cons_ne p v₁ _ h,
          addToMap_cons_ne p v₁ rest h, addToMap_cons_ne p v₂ _ h, ih]

theorem addToMap_addToMap_perm {α : Type} [DecidableEq α] (k₁ k₂ : α)
    (v₁ v₂ : ℚ) : ∀ l : List (α × ℚ),
      (addToMap k₁ v₁ (addToMap k₂ v₂ l)).Perm
        (addToMap k₂ v₂ (addToMap k₁ v₁ l)) := by
  intro l
  by_cases hk : k₁ = k₂
  · subst hk; rw [addToMap_addToMap_same]
  · induction l with
    | nil =>
        show (addToMap k₁ v₁ [(k₂, v₂)]).Perm (addToMap k₂ v₂ [(k₁, v₁)])
        rw [addToMap_cons_ne (k₂, v₂) v₁ [] hk,
          addToMap_cons_ne (k₁, v₁) v₂ [] (Ne.symm hk)]
        show ((k₂, v₂) :: [(k₁, v₁)]).Perm ((k₁, v₁) :: [(k₂, v₂)])
        exact List.Perm.swap _ _ _
    | cons p rest ih =>
        by_cases h₂ : k₂ = p.1
        · subst h₂
          rw [addToMap_cons_eq, addToMap_cons_ne p v₁ rest hk,
            addToMap_cons_ne (p.1, p.2 + v₂) v₁ rest hk, addToMap_cons_eq]
        · by_cases h₁ : k₁ = p.1
          · subst h₁
            rw [addToMap_cons_ne p v₂ rest (Ne.symm hk), addToMap_cons_eq,
              addToMap_cons_eq,
              addToMap_cons_ne (p.1, p.2 + v₁) v₂ rest (Ne.symm hk)]
          · rw [addToMap_cons_ne p v₂ rest h₂, addToMap_cons_ne p v₁ _ h₁,
              addToMap_cons_ne p v₁ rest h₁, addToMap_cons_ne p v₂ _ h₂]
            exact ih.cons _

theorem MRel.symm {a b : MonthMatrix} (h : MRel a b) : MRel b a :=
  ⟨h.1.symm, h.2.1.symm, h.2.2.symm⟩

theorem applySlot_action (t : Int × Nat) (p : String) (wy : Int) (wn : Nat)
    (m : MonthMatrix) (s : Nat × ℚ) :
    applySlot t p wy wn m s =
      match slotAction t p wy wn s with
      | none => m
      | some a => ⟨addToMap a.1 a.2.2 m.cells, addToMap a.2.1 a.2.2 m.colTotals,
          m.grandTotal + a.2.2⟩ := by
  by_cases hz : s.2 = 0
  · simp [applySlot, slotAction, hz]
  · cases hfd : fromIsoywd wy wn s.1 with
    | none => simp [applySlot, slotAction, hz, hfd]
    | some date =>
        by_cases hm : date.year = t.1 ∧ date.month = t.2
        · simp [applySlot, slotAction, hz, hfd, hm]
        · simp [applySlot, slotAction, hz, hfd, hm]

theorem applySlot_inv (t : Int × Nat) (p : String) (wy : Int) (wn : Nat)
    (m : MonthMatrix) (s : Nat × ℚ) (h : MInv m) :
    MInv (applySlot t p wy wn m s) := by
  rw [applySlot_action]
  cases slotAction t p wy wn s with
  | none => exact h
  | some a =>
      exact ⟨addToMap_nodupKeys _ _ _ h.1, addToMap_nodupKeys _ _ _ h.2⟩

theorem applySlot_congr (t : Int × Nat) (p : String) (wy : Int) (wn : Nat)
    {m m' : MonthMatrix} (hrel : MRel m m') (hinv : MInv m) (s : Nat × ℚ) :
    MRel (applySlot t p wy wn m s) (applySlot t p wy wn m' s) := by
  rw [applySlot_action, applySlot_action]
  cases slotAction t p wy wn s with
  | none => exact hrel
  | some a =>
      exact ⟨addToMap_perm _ _ hrel.1 hinv.1,
        addToMap_perm _ _ hrel.2.1 hinv.2, by rw [hrel.2.2]⟩

theorem applySlot_comm (t : Int × Nat) (p₁ p₂ : String) (wy₁ wy₂ : Int)
    (wn₁ wn₂ : Nat) (m : MonthMatrix) (s₁ s₂ : Nat × ℚ) :
    MRel (applySlot t p₂ wy₂ wn₂ (applySlot t p₁ wy₁ wn₁ m s₁) s₂)
      (applySlot t p₁ wy₁ wn₁ (applySlot t p₂ wy₂ wn₂ m s₂) s₁) := by
  rw [applySlot_action t p₁ wy₁ wn₁ m s₁, applySlot_action t p₂ wy₂ wn₂ m s₂]
  cases h₁ : slotAction t p₁ wy₁ wn₁ s₁ with
  | none =>
      cases h₂ : slotAction t p₂ wy₂ wn₂ s₂ with
      | none =>
          rw [applySlot_action t p₂ wy₂ wn₂ _ s₂, h₂,
            applySlot_action t p₁ wy₁ wn₁ _ s₁, h₁]
          exact MRel.refl _
      | some b =>
          rw [applySlot_action t p₂ wy₂ wn₂ _ s₂, h₂,
            applySlot_action t p₁ wy₁ wn₁ _ s₁, h₁]
          exact MRel.refl _
  | some a =>
      cases h₂ : slotAction t p₂ wy₂ wn₂ s₂ with
      | none =>
          rw [applySlot_action t p₂ wy₂ wn₂ _ s₂, h₂,
            applySlot_action t p₁ wy₁ wn₁ _ s₁, h₁]
          exact MRel.refl _
      | some b =>
          rw [applySlot_action t p₂ wy₂ wn₂ _ s₂, h₂,
            applySlot_action t p₁ wy₁ wn₁ _ s₁, h₁]
          exact ⟨addToMap_addToMap_perm _ _ _ _ _,
            addToMap_addToMap_perm _ _ _ _ _, by ring⟩

theorem slotsFold_inv (t : Int × Nat) (p : String) (wy : Int) (wn : Nat) :
    ∀ (sl : List (Nat × ℚ)) (m : MonthMatrix), MInv m →
      MInv (sl.foldl (applySlot t p wy wn) m)
  | [], _, h => h
  | s :: sl, m, h =>
      slotsFold_inv t p wy wn sl _ (applySlot_inv t p wy wn m s h)

theorem slotsFold_congr (t : Int × Nat) (p : String) (wy : Int) (wn : Nat) :
    ∀ (sl : List (Nat × ℚ)) {m m' : MonthMatrix}, MRel m m' → MInv m →
      MRel (sl.foldl (applySlot t p wy wn) m)
        (sl.foldl (applySlot t p wy wn) m') := by
  intro sl
  induction sl with
  | nil => intro m m' hrel _; exact hrel
  | cons s sl ih =>
      intro m m' hrel hinv
      simp only [List.foldl_cons]
      exact ih (applySlot_congr t p wy wn hrel hinv s)
        (applySlot_inv t p wy wn m s hinv)

theorem slot_slotsFold_comm (t : Int × Nat) (p₁ p₂ : String) (wy₁ wy₂ : Int)
    (wn₁ wn₂ : Nat) :
    ∀ (sl : List (Nat × ℚ)) (m : MonthMatrix) (s : Nat × ℚ), MInv m →
      MRel (applySlot t p₂ wy₂ wn₂ (sl.foldl (applySlot t p₁ wy₁ wn₁) m) s)
        (sl.foldl (applySlot t p₁ wy₁ wn₁) (applySlot t p₂ wy₂ wn₂ m s)) := by
  intro sl
  induction sl with
  | nil => intro m s _; exact MRel.refl _
  | cons x sl ih =>
      intro m s hinv
      simp only [List.foldl_cons]
      refine (ih _ s (applySlot_inv t p₁ wy₁ wn₁ m x hinv)).trans ?_
      refine slotsFold_congr t p₁ wy₁ wn₁ sl ?_ ?_
      · exact applySlot_comm t p₁ p₂ wy₁ wy₂ wn₁ wn₂ m x s
      · exact applySlot_inv t p₂ wy₂ wn₂ _ s
          (applySlot_inv t p₁ wy₁ wn₁ m x hinv)

theorem slotsFold_slotsFold_comm (t : Int × Nat) (p₁ p₂ : String)
    (wy₁ wy₂ : Int) (wn₁ wn₂ : Nat) :
    ∀ (sl₁ sl₂ : List (Nat × ℚ)) (m : MonthMatrix), MInv m →
      MRel (sl₂.foldl (applySlot t p₂ wy₂ wn₂)
          (sl₁.foldl (applySlot t p₁ wy₁ wn₁) m))
        (sl₁.foldl (applySlot t p₁ wy₁ wn₁)
          (sl₂.foldl (applySlot t p₂ wy₂ wn₂) m)) := by
  intro sl₁
  induction sl₁ with
  | nil => intro sl₂ m _; exact MRel.refl _
  | cons x sl₁ ih =>
      intro sl₂ m hinv
      simp only [List.foldl_cons]
      refine (ih sl₂ _ (applySlot_inv t p₁ wy₁ wn₁ m x hinv)).trans ?_
      refine slotsFold_congr t p₁ wy₁ wn₁ sl₁ ?_ ?_
      · exact (slot_slotsFold_comm t p₂ p₁ wy₂ wy₁ wn₂ wn₁ sl₂ m x hinv).symm
      · exact slotsFold_inv t p₂ wy₂ wn₂ sl₂ _
          (applySlot_inv t p₁ wy₁ wn₁ m x hinv)

theorem aggStep_inv (t : Int × Nat) (m : MonthMatrix) (r : EntryRow)
    (h : MInv m) : MInv (aggStep t m r) := by
  unfold aggStep
  cases parseWeek r.week with
  | none => exact h
  | some p => exact slotsFold_inv t r.project p.1 p.2 r.slots m h

theorem aggStep_congr (t : Int × Nat) {m m' : MonthMatrix} (r : EntryRow)
    (hrel : MRel m m') (hinv : MInv m) :
    MRel (aggStep t m r) (aggStep t m' r) := by
  unfold aggStep
  cases parseWeek r.week with
  | none => exact hrel
  | some p => exact slotsFold_congr t r.project p.1 p.2 r.slots hrel hinv

theorem aggStep_comm (t : Int × Nat) (m : MonthMatrix) (r₁ r₂ : EntryRow)
    (h : MInv m) :
    MRel (aggStep t (aggStep t m r₁) r₂) (aggStep t (aggStep t m r₂) r₁) := by
  cases h₁ : parseWeek r₁.week with
  | none =>
      simp only [aggStep, h₁]
      exact MRel.refl _
  | some p₁ =>
      obtain ⟨wy₁, wn₁⟩ := p₁
      cases h₂ : parseWeek r₂.week with
      | none =>
          simp only [aggStep, h₁, h₂]
          exact MRel.refl _
      | some p₂ =>
          obtain ⟨wy₂, wn₂⟩ := p₂
          simp only [aggStep, h₁, h₂]
          exact slotsFold_slotsFold_comm t r₁.project r₂.project wy₁ wy₂
            wn₁ wn₂ r₁.slots r₂.slots m h

theorem rowsFold_congr (t : Int × Nat) :
    ∀ (rows : List EntryRow) {m m' : MonthMatrix}, MRel m m' → MInv m →
      MRel (rows.foldl (aggStep t) m) (rows.foldl (aggStep t) m') := by
  intro rows
  induction rows with
  | nil => intro m m' hrel _; exact hrel
  | cons r rows ih =>
      intro m m' hrel hinv
      simp only [List.foldl_cons]
      exact ih (aggStep_congr t r hrel hinv) (aggStep_inv t m r hinv)

theorem rowsFold_perm (t : Int × Nat) {rows rows' : List EntryRow}
    (hp : rows.Perm rows') :
    ∀ m : MonthMatrix, MInv m →
      MRel (rows.foldl (aggStep t) m) (rows'.foldl (aggStep t) m) := by
  induction hp with
  | nil => intro m _; exact MRel.refl _
  | cons x hperm ih =>
      intro m h
      simp only [List.foldl_cons]
      exact ih _ (aggStep_inv t m x h)
  | swap x y l =>
      intro m h
      simp only [List.foldl_cons]
      exact rowsFold_congr t l (aggStep_comm t m y x h)
        (aggStep_inv t _ x (aggStep_inv t m y h))
  | trans hp₁ hp₂ ih₁ ih₂ =>
      intro m h
      exact (ih₁ m h).trans (ih₂ m h)

/-- C4: aggregation is invariant under permutation of the input rows: the
permuted rows yield a month matrix with the same project-day cells (the cell
lists are permutations of each other, hence — keys being unique — equal as
maps), the same column totals, and the same grand total. -/
theorem c4_aggregation_row_order_invariant (rows rows' : List EntryRow)
    (target : Int × Nat) (hp : rows.Perm rows') :
    (aggregate rows target).cells.Perm (aggregate rows' target).cells ∧
    (aggregate rows target).colTotals.Perm
      (aggregate rows' target).colTotals ∧
    (aggregate rows target).grandTotal
      = (aggregate rows' target).grandTotal :=
  rowsFold_perm target hp emptyMatrix ⟨List.nodup_nil, List.nodup_nil⟩

theorem c4_witness :
    (aggregate [permRowA, permRowB] (2024, 1)).cells.Perm
        (aggregate [permRowB, permRowA] (2024, 1)).cells ∧
    (aggregate [permRowA, permRowB] (2024, 1)).colTotals.Perm
        (aggregate [permRowB, permRowA] (2024, 1)).colTotals ∧
    (aggregate [permRowA, permRowB] (2024, 1)).grandTotal
      = (aggregate [permRowB, permRowA] (2024, 1)).grandTotal :=
  c4_aggregation_row_order_invariant [permRowA, permRowB]
    [permRowB, permRowA] (2024, 1) (List.Perm.swap permRowB permRowA [])

/-! Characterization of a single cell of the aggregation: its value is the
sum of the per-row contributions, so inserting one row raises the cell by
exactly that row's contribution. -/

theorem lookupQ_cons {α : Type} [DecidableEq α] (p : α × ℚ)
    (l : List (α × ℚ)) (k : α) :
    lookupQ (p :: l) k = if p.1 = k then p.2 else lookupQ l k := by
  by_cases h : p.1 = k
  · simp [lookupQ, List.find?, h]
  · simp [lookupQ, List.find?, h]

theorem lookupQ_addToMap_self {α : Type} [DecidableEq α] (k : α) (v : ℚ) :
    ∀ l : List (α × ℚ), lookupQ (addToMap k v l) k = lookupQ l k + v := by
  intro l
  induction l with
  | nil => simp [addToMap, lookupQ, List.find?]
  | cons p rest ih =>
      by_cases h : k = p.1
      · subst h
        rw [addToMap_cons_eq, lookupQ_cons, lookupQ_cons]
        simp
      · rw [addToMap_cons_ne p v rest h, lookupQ_cons, lookupQ_cons]
        by_cases h2 : p.1 = k
        · exact absurd h2.symm h
        · simp [h2, ih]

theorem lookupQ_addToMap_ne {α : Type} [DecidableEq α] {k k' : α} (v : ℚ)
    (hk : k' ≠ k) : ∀ l : List (α × ℚ),
      lookupQ (addToMap k v l) k' = lookupQ l k' := by
  have hkk : ¬ k = k' := fun h => hk h.symm
  intro l
  induction l with
  | nil => simp [addToMap, lookupQ, List.find?, hkk]
  | cons p rest ih =>
      by_cases h : k = p.1
      · subst h
        rw [addToMap_cons_eq, lookupQ_cons, lookupQ_cons]
        simp [hkk]
      · rw [addToMap_cons_ne p v rest h, lookupQ_cons, lookupQ_cons]
        by_cases h2 : p.1 = k' <;> simp [h2, ih]

theorem cellsLookup_applySlot (t : Int × Nat) (p : String) (wy : Int)
    (wn : Nat) (m : MonthMatrix) (s : Nat × ℚ) (key : String × Nat) :
    lookupQ (applySlot t p wy wn m s).cells key
      = lookupQ m.cells key + slotCellContrib t p wy wn key s := by
  rw [applySlot_action]
  unfold slotCellContrib
  cases slotAction t p wy wn s with
  | none => simp
  | some a =>
      simp only
      by_cases hk : a.1 = key
      · subst hk
        rw [if_pos rfl, lookupQ_addToMap_self]
      · rw [if_neg hk, lookupQ_addToMap_ne _ (fun h => hk h.symm), add_zero]

theorem cellsLookup_slotsFold (t : Int × Nat) (p : String) (wy : Int)
    (wn : Nat) (key : String × Nat) :
    ∀ (sl : List (Nat × ℚ)) (m : MonthMatrix),
      lookupQ (sl.foldl (applySlot t p wy wn) m).cells key
        = lookupQ m.cells key
          + (sl.map (slotCellContrib t p wy wn key)).sum := by
  intro sl
  induction sl with
  | nil => intro m; simp
  | cons s sl ih =>
      intro m
      simp only [List.foldl_cons, List.map_cons, List.sum_cons]
      rw [ih, cellsLookup_applySlot]
      ring

theorem cellsLookup_aggStep (t : Int × Nat) (m : MonthMatrix) (r : EntryRow)
    (key : String × Nat) :
    lookupQ (aggStep t m r).cells key
      = lookupQ m.cells key + rowCellContrib t key r := by
  unfold aggStep rowCellContrib
  cases parseWeek r.week with
  | none => simp
  | some pr =>
      obtain ⟨wy, wn⟩ := pr
      simp only
      exact cellsLookup_slotsFold t r.project wy wn key r.slots m

theorem cellsLookup_rowsFold (t : Int × Nat) (key : String × Nat) :
    ∀ (rows : List EntryRow) (m : MonthMatrix),
      lookupQ (rows.foldl (aggStep t) m).cells key
        = lookupQ m.cells key + (rows.map (rowCellContrib t key)).sum := by
  intro rows
  induction rows with
  | nil => intro m; simp
  | cons r rows ih =>
      intro m
      simp only [List.foldl_cons, List.map_cons, List.sum_cons]
      rw [ih, cellsLookup_aggStep]
      ring

theorem cellVal_aggregate (rows : List EntryRow) (t : Int × Nat) (p : String)
    (d : Nat) :
    cellVal (aggregate rows t) p d
      = (rows.map (rowCellContrib t (p, d))).sum := by
  unfold cellVal aggregate
  rw [cellsLookup_rowsFold]
  simp [emptyMatrix, lookupQ, List.find?]

theorem cellVal_insert (rows₁ rows₂ : List EntryRow) (r : EntryRow)
    (t : Int × Nat) (p : String) (d : Nat) :
    cellVal (aggregate (rows₁ ++ r :: rows₂) t) p d
      = cellVal (aggregate (rows₁ ++ rows₂) t) p d
        + rowCellContrib t (p, d) r := by
  rw [cellVal_aggregate, cellVal_aggregate]
  simp only [List.map_append, List.map_cons, List.sum_append, List.sum_cons]
  ring

/-! The ISO week-date conversion sends distinct weekdays of one week to
distinct dates: the weekday of the produced date is the weekday asked for. -/

theorem isoWeekday_bounds (y : Int) (m d : Nat) :
    1 ≤ isoWeekday y m d ∧ isoWeekday y m d ≤ 7 := by
  unfold isoWeekday
  omega

theorem isoWeeksInYear_le (y : Int) : isoWeeksInYear y ≤ 53 := by
  unfold isoWeeksInYear
  split <;> omega

theorem daysInYear_bounds (y : Int) :
    365 ≤ daysInYear y ∧ daysInYear y ≤ 366 := by
  unfold daysInYear
  split <;> omega

theorem sum_monthLengths (y : Int) :
    ((monthLengths y).sum : Int) = daysInYear y := by
  unfold monthLengths daysInYear
  cases h : isLeap y <;> simp [h]

theorem daysBeforeYear_succ (y : Int) :
    daysBeforeYear y = daysBeforeYear (y - 1) + daysInYear (y - 1) := by
  unfold daysBeforeYear daysInYear isLeap
  rw [Int.fdiv_eq_ediv _ (by norm_num : (0:Int) ≤ 4),
    Int.fdiv_eq_ediv _ (by norm_num : (0:Int) ≤ 100),
    Int.fdiv_eq_ediv _ (by norm_num : (0:Int) ≤ 400),
    Int.fdiv_eq_ediv _ (by norm_num : (0:Int) ≤ 4),
    Int.fdiv_eq_ediv _ (by norm_num : (0:Int) ≤ 100),
    Int.fdiv_eq_ediv _ (by norm_num : (0:Int) ≤ 400)]
  split
  · next h =>
      simp only [Bool.or_eq_true, Bool.and_eq_true, beq_iff_eq, bne_iff_ne,
        ne_eq] at h
      omega
  · next h =>
      simp only [Bool.or_eq_true, Bool.and_eq_true, beq_iff_eq, bne_iff_ne,
        ne_eq] at h
      push_neg at h
      omega

theorem ordMonthAux_spec :
    ∀ (ls : List Nat) (m0 : Nat) (ord : Int), 1 ≤ ord →
      ord ≤ (ls.sum : Int) →
      ∃ j : Nat, (ordMonthAux ls m0 ord).1 = m0 + j ∧
        1 ≤ (ordMonthAux ls m0 ord).2 ∧
        ((ls.take j).sum : Int) + (ordMonthAux ls m0 ord).2 = ord := by
  intro ls
  induction ls with
  | nil =>
      intro m0 ord h1 h2
      simp only [List.sum_nil, Nat.cast_zero] at h2
      omega
  | cons len rest ih =>
      intro m0 ord h1 h2
      by_cases hc : ord ≤ (len : Int)
      · refine ⟨0, ?_, ?_, ?_⟩ <;> simp [ordMonthAux, hc, h1]
      · have h1' : 1 ≤ ord - len := by omega
        have h2' : ord - len ≤ (rest.sum : Int) := by
          simp only [List.sum_cons, Nat.cast_add] at h2
          omega
        obtain ⟨j, hm, hge, hsum⟩ := ih (m0 + 1) (ord - len) h1' h2'
        refine ⟨j + 1, ?_, ?_, ?_⟩
        · simp only [ordMonthAux, if_neg hc]
          omega
        · simp only [ordMonthAux, if_neg hc]
          exact hge
        · simp only [ordMonthAux, if_neg hc, List.take_succ_cons,
            List.sum_cons, Nat.cast_add]
          omega

theorem ordinalToDate_spec (y : Int) (ord : Int) (h1 : 1 ≤ ord)
    (h2 : ord ≤ daysInYear y) :
    (ordinalToDate y ord).year = y ∧
    ((dayOfYear y (ordinalToDate y ord).month (ordinalToDate y ord).day
      : Int) = ord) := by
  have h2' : ord ≤ ((monthLengths y).sum : Int) := by
    rw [sum_monthLengths]; exact h2
  obtain ⟨j, hm, hge, hsum⟩ := ordMonthAux_spec (monthLengths y) 1 ord h1 h2'
  refine ⟨rfl, ?_⟩
  show ((dayOfYear y (ordMonthAux (monthLengths y) 1 ord).1
      (ordMonthAux (monthLengths y) 1 ord).2.toNat : Nat) : Int) = ord
  unfold dayOfYear daysBeforeMonth
  rw [hm]
  have hj : 1 + j - 1 = j := by omega
  rw [hj]
  push_cast at hsum ⊢
  omega

theorem fromIsoywd_bounds {y : Int} {n wd : Nat} {D : Date}
    (h : fromIsoywd y n wd = some D) :
    1 ≤ n ∧ n ≤ isoWeeksInYear y ∧ 1 ≤ wd ∧ wd ≤ 7 := by
  by_cases hg : 1 ≤ n ∧ n ≤ isoWeeksInYear y ∧ 1 ≤ wd ∧ wd ≤ 7
  · exact hg
  · unfold fromIsoywd at h
    rw [if_neg hg] at h
    cases h

theorem isoWeekday_fromIsoywd {y : Int} {n wd : Nat} {D : Date}
    (h : fromIsoywd y n wd = some D) :
    isoWeekday D.year D.month D.day = wd := by
  obtain ⟨hn1, hn2, hw1, hw7⟩ := fromIsoywd_bounds h
  have hj4 := isoWeekday_bounds y 1 4
  have hweeks := isoWeeksInYear_le y
  have hdy := daysInYear_bounds y
  have hdy1 := daysInYear_bounds (y - 1)
  have hdy2 := daysInYear_bounds (y + 1)
  have hdbm : daysBeforeMonth y 1 = 0 := by simp [daysBeforeMonth]
  have hjan : (isoWeekday y 1 4 : Int) = (daysBeforeYear y + 3) % 7 + 1 := by
    unfold isoWeekday rataDie dayOfYear
    rw [hdbm]
    omega
  have hwk : ∀ (Y : Int) (M Dd : Nat), isoWeekday Y M Dd
      = ((daysBeforeYear Y + (dayOfYear Y M Dd : Int) - 1) % 7).toNat + 1 :=
    fun _ _ _ => rfl
  have hsucc1 := daysBeforeYear_succ y
  have hsucc2 := daysBeforeYear_succ (y + 1)
  rw [add_sub_cancel_right] at hsucc2
  have key : fromIsoywd y n wd =
      (if (7 * (n : Int) + (wd : Int) - ((isoWeekday y 1 4 : Int) + 3))
          < 1 then
        some (ordinalToDate (y - 1)
          ((7 * (n : Int) + (wd : Int) - ((isoWeekday y 1 4 : Int) + 3))
            + daysInYear (y - 1)))
      else if (7 * (n : Int) + (wd : Int) - ((isoWeekday y 1 4 : Int) + 3))
          > daysInYear y then
        some (ordinalToDate (y + 1)
          ((7 * (n : Int) + (wd : Int) - ((isoWeekday y 1 4 : Int) + 3))
            - daysInYear y))
      else some (ordinalToDate y
        (7 * (n : Int) + (wd : Int) - ((isoWeekday y 1 4 : Int) + 3)))) := by
    unfold fromIsoywd
    rw [if_pos ⟨hn1, hn2, hw1, hw7⟩]
  rw [key] at h
  split at h
  · next hc =>
      obtain ⟨hY, hdoy⟩ := ordinalToDate_spec (y - 1)
        ((7 * (n : Int) + (wd : Int) - ((isoWeekday y 1 4 : Int) + 3))
          + daysInYear (y - 1)) (by omega) (by omega)
      injection h with h
      subst h
      rw [hY, hwk, hdoy]
      omega
  · next hc1 =>
      split at h
      · next hc2 =>
          obtain ⟨hY, hdoy⟩ := ordinalToDate_spec (y + 1)
            ((7 * (n : Int) + (wd : Int) - ((isoWeekday y 1 4 : Int) + 3))
              - daysInYear y) (by omega) (by omega)
          injection h with h
          subst h
          rw [hY, hwk, hdoy]
          omega
      · next hc2 =>
          obtain ⟨hY, hdoy⟩ := ordinalToDate_spec y
            (7 * (n : Int) + (wd : Int) - ((isoWeekday y 1 4 : Int) + 3))
            (by omega) (by omega)
          injection h with h
          subst h
          rw [hY, hwk, hdoy]
          omega

theorem fromIsoywd_inj {y : Int} {n wd wd' : Nat} {D : Date}
    (h : fromIsoywd y n wd = some D) (h' : fromIsoywd y n wd' = some D) :
    wd = wd' := by
  rw [← isoWeekday_fromIsoywd h, ← isoWeekday_fromIsoywd h']

theorem slotCellContrib_hit (t : Int × Nat) (p : String) (y : Int)
    (n d : Nat) (k : Nat) (hq : ℚ) (hz : hq ≠ 0)
    (hfd : fromIsoywd y n k = some ⟨t.1, t.2, d⟩) :
    slotCellContrib t p y n (p, d) (k, hq) = hq := by
  have hsa : slotAction t p y n (k, hq) = some ((p, d), d, hq) := by
    simp [slotAction, hz, hfd]
  unfold slotCellContrib
  rw [hsa]
  simp

theorem slotCellContrib_miss (t : Int × Nat) (p : String) (y : Int)
    (n wd d : Nat) (k : Nat) (hq : ℚ)
    (hdate : fromIsoywd y n wd = some ⟨t.1, t.2, d⟩) (hk : k ≠ wd) :
    slotCellContrib t p y n (p, d) (k, hq) = 0 := by
  by_cases hz : hq = 0
  · have hsa : slotAction t p y n (k, hq) = none := by simp [slotAction, hz]
    unfold slotCellContrib
    rw [hsa]
  · cases hfd : fromIsoywd y n k with
    | none =>
        have hsa : slotAction t p y n (k, hq) = none := by
          simp [slotAction, hz, hfd]
        unfold slotCellContrib
        rw [hsa]
    | some date =>
        by_cases hm : date.year = t.1 ∧ date.month = t.2
        · have hne : ((p, date.day) : String × Nat) ≠ (p, d) := by
            intro hcontra
            have hd : date.day = d := congrArg Prod.snd hcontra
            have hdd : date = (⟨t.1, t.2, d⟩ : Date) := by
              obtain ⟨hm1, hm2⟩ := hm
              obtain ⟨dy, dm, dd⟩ := date
              simp only at hm1 hm2 hd
              subst hm1
              subst hm2
              subst hd
              rfl
            rw [hdd] at hfd
            exact hk (fromIsoywd_inj hfd hdate)
          have hsa : slotAction t p y n (k, hq)
              = some ((p, date.day), date.day, hq) := by
            simp [slotAction, hz, hfd, hm]
          unfold slotCellContrib
          rw [hsa]
          simp [hne]
        · have hsa : slotAction t p y n (k, hq) = none := by
            simp [slotAction, hz, hfd, hm]
          unfold slotCellContrib
          rw [hsa]

theorem slotCellContrib_eval (t : Int × Nat) (p : String) (y : Int)
    (n wd d : Nat) (k : Nat) (hq : ℚ)
    (hdate : fromIsoywd y n wd = some ⟨t.1, t.2, d⟩)
    (hh0 : k = wd → hq ≠ 0) :
    slotCellContrib t p y n (p, d) (k, hq) = if k = wd then hq else 0 := by
  by_cases hk : k = wd
  · subst hk
    rw [if_pos rfl]
    exact slotCellContrib_hit t p y n d k hq (hh0 rfl) hdate
  · rw [if_neg hk]
    exact slotCellContrib_miss t p y n wd d k hq hdate hk

theorem rowCellContrib_self (t : Int × Nat) (e : StoredEntry) (y : Int)
    (n wd d : Nat)
    (hparse : parseWeek e.week = some (y, n))
    (hdate : fromIsoywd y n wd = some ⟨t.1, t.2, d⟩)
    (hh : dayField e wd ≠ 0) :
    rowCellContrib t (e.project, d) e.toRow = dayField e wd := by
  obtain ⟨hn1, hn2, hw1, hw7⟩ := fromIsoywd_bounds hdate
  unfold rowCellContrib
  rw [show parseWeek e.toRow.week = some (y, n) from hparse]
  simp only [EntryRow.slots, StoredEntry.toRow, List.map_cons, List.map_nil,
    List.sum_cons, List.sum_nil]
  rw [slotCellContrib_eval t e.project y n wd d 1 e.mon hdate
      (fun hk => by subst hk; exact hh),
    slotCellContrib_eval t e.project y n wd d 2 e.tue hdate
      (fun hk => by subst hk; exact hh),
    slotCellContrib_eval t e.project y n wd d 3 e.wed hdate
      (fun hk => by subst hk; exact hh),
    slotCellContrib_eval t e.project y n wd d 4 e.thu hdate
      (fun hk => by subst hk; exact hh),
    slotCellContrib_eval t e.project y n wd d 5 e.fri hdate
      (fun hk => by subst hk; exact hh),
    slotCellContrib_eval t e.project y n wd d 6 e.sat hdate
      (fun hk => by subst hk; exact hh),
    slotCellContrib_eval t e.project y n wd d 7 e.sun hdate
      (fun hk => by subst hk; exact hh)]
  interval_cases wd <;> simp [dayField]

/-- C10: the export's per-day hours lookup matches stored entries only under
the canonical zero-padded week string of the day's ISO week, while the
monthly aggregation parses any two-part week string.  So for every entry
stored, in any store, under a non-canonical but numerically equivalent week
string, and every weekday of it carrying nonzero hours whose ISO week-date
falls on day `d` of the target month: the month matrix's cell for the
entry's project at day `d` is exactly those hours larger than the same cell
aggregated without the entry — its hours appear in the matrix — while, as
long as no stored entry holds the canonical week string for that project,
the exported hours cell of day `d` is a styled blank. -/
theorem c10_noncanonical_week_matrix_vs_export
    (store₁ store₂ : List StoredEntry) (e : StoredEntry) (y : Int)
    (n wd : Nat) (t : Int × Nat) (d : Nat)
    (hparse : parseWeek e.week = some (y, n))
    (hdate : fromIsoywd y n wd = some ⟨t.1, t.2, d⟩)
    (hh : dayField e wd ≠ 0)
    (hvalid : isValidYmd t.1 t.2 d = true)
    (hiw : isoWeekOfDate t.1 t.2 d = (y, n))
    (hwdd : isoWeekday t.1 t.2 d = wd)
    (hnocanon : ∀ e' ∈ store₁ ++ e :: store₂,
      e'.week ≠ canonicalWeekString y n ∨ e'.project ≠ e.project) :
    cellVal (aggregate ((store₁ ++ e :: store₂).map StoredEntry.toRow) t)
        e.project d
      = cellVal (aggregate ((store₁ ++ store₂).map StoredEntry.toRow) t)
          e.project d + dayField e wd ∧
    exportDayColumn (store₁ ++ e :: store₂) e.project t.1 t.2 d
      = [Placement.str startRowCal (d + 1) (dutchDay wd) "sheet_header",
         Placement.num (startRowCal + 1) (d + 1) (d : ℚ) "sheet_header",
         Placement.blank startRowHours (d + 1) "sheet_hours"] := by
  constructor
  · rw [List.map_append, List.map_cons, cellVal_insert, List.map_append,
      rowCellContrib_self t e y n wd d hparse hdate hh]
  · have hnone : List.find?
        (fun e' => e'.week == canonicalWeekString y n
          && e'.project == e.project) (store₁ ++ e :: store₂) = none := by
      rw [List.find?_eq_none]
      intro x hx
      rcases hnocanon x hx with hcw | hcp
      · simp [hcw]
      · simp [hcp]
    simp [exportDayColumn, hvalid, exportHoursVal, hiw, hwdd,
      storeLookupHours, hnone]

theorem c10_witness :
    cellVal (aggregate ([ncWeekEntry, betaEntry].map StoredEntry.toRow)
        (2024, 1)) "Acme" 29
      = cellVal (aggregate ([betaEntry].map StoredEntry.toRow) (2024, 1))
          "Acme" 29 + 8 ∧
    exportDayColumn [ncWeekEntry, betaEntry] "Acme" 2024 1 29
      = [Placement.str 14 30 "Ma" "sheet_header",
         Placement.num 15 30 29 "sheet_header",
         Placement.blank 16 30 "sheet_hours"] :=
  c10_noncanonical_week_matrix_vs_export [] [betaEntry] ncWeekEntry 2024 5 1
    (2024, 1) 29 (by decide) (by decide) (by decide) (by decide) (by decide)
    (by decide)
    (by
      intro e' he'
      simp only [List.nil_append, List.mem_cons, List.not_mem_nil,
        or_false] at he'
      rcases he' with rfl | rfl
      · left
        decide
      · right
        decide)

end Timesheet
